import Mathlib

/-!
Verification of the import pipeline of smart-finance-tracker.

This file is a shallow embedding, in Lean 4, of the Go functions of the
repository that the verified properties talk about:

* the normalizer (`ParseAmount`, `NormalizeDebitCredit`, `ParseFlexibleDate`,
  `convertDateFormat`, `dateFormats`) from the package `normalizer`;
* the sniffer (`findHeaderRow`, `generateFingerprint`, `headerKeywords`)
  from the package `sniffer`;
* the import orchestration loop of `ImportWithOptions` together with the
  repository operations `BulkInsertTransactions`, `FinishImportJob`,
  `ListTransactions` and the service operation `SaveMapping`.

Modelling conventions:

* Go strings are Lean `String`s; all computations are carried out on the
  underlying `List Char` so that the proofs can proceed by list induction.
* Go `int`/`int64` become `Nat`/`Int`; none of the verified code paths can
  overflow 64 bits on the inputs the theorems quantify over.
* `strconv.ParseFloat` followed by `math.Round(val*100)` is modelled exactly:
  the accepted decimal strings are parsed into an integer mantissa and a
  power-of-ten scale, and the rounding (half away from zero, as `math.Round`)
  is performed with exact integer arithmetic.  For the magnitudes the
  round-trip theorem quantifies over (at most 10^12 minor units) the binary
  double of the Go implementation is exact to well below half a minor unit,
  so the exact model agrees with the float implementation there.
* Unicode classification (`unicode.IsLetter`, `unicode.IsDigit`,
  `unicode.ToLower`, `strings.ToLower`, `strings.TrimSpace`) is modelled on
  ASCII plus the Latin-1/Latin-Extended letters that the repository's header
  keywords actually use; the theorems below depend only on facts that hold
  for the full Unicode tables as well (for example: `|`, punctuation and
  whitespace are neither letters nor digits).
* SHA-256 hex digests (`generateFingerprint`, `generateExternalID`) are
  modelled as injective encodings of their input string: the hash of the Go
  implementation is a deterministic function of the input, so equal inputs
  give equal digests; the model additionally assumes the absence of SHA-256
  collisions, which is the intended reading of fingerprint distinctness.
-/

namespace SmartFinance

/-! ## Character helpers -/

/-- ASCII decimal digit test; models `unicode.IsDigit` restricted to the
ASCII range (non-ASCII decimal digits are not used by the repository). -/
def uIsDigit (c : Char) : Bool := c.isDigit

/-- Letter test modelling `unicode.IsLetter` on ASCII letters, the Latin-1
supplement (minus the multiplication and division signs) and the Latin
Extended A/B blocks, which cover every header keyword of the repository. -/
def uIsLetter (c : Char) : Bool :=
  c.isAlpha ||
    (0xC0 ≤ c.toNat && c.toNat ≤ 0x24F && c.toNat ≠ 0xD7 && c.toNat ≠ 0xF7)

/-- Lower-casing modelling `unicode.ToLower` on the same restricted
repertoire: ASCII upper-case letters and the upper-case Latin-1 letters map
down by 0x20, everything else is fixed. -/
def uToLower (c : Char) : Char :=
  if 0x41 ≤ c.toNat ∧ c.toNat ≤ 0x5A then Char.ofNat (c.toNat + 0x20)
  else if 0xC0 ≤ c.toNat ∧ c.toNat ≤ 0xDE ∧ c.toNat ≠ 0xD7 then
    Char.ofNat (c.toNat + 0x20)
  else c

/-- Whitespace test modelling `unicode.IsSpace` on the ASCII space
characters used by the repository's inputs. -/
def uIsSpace (c : Char) : Bool :=
  c = ' ' || c = '\t' || c = '\n' || c = '\r' || c.toNat = 11 || c.toNat = 12

/-- `strings.TrimSpace`: drop whitespace from both ends. -/
def trimSpace (s : String) : String :=
  String.mk (((s.data.dropWhile uIsSpace).reverse.dropWhile uIsSpace).reverse)

/-- Decimal value of a digit character. -/
def digitVal (c : Char) : Nat := c.toNat - 48

/-- Decimal reading of a digit string (most significant first). -/
def decToNat (cs : List Char) : Nat :=
  cs.foldl (fun a c => 10 * a + digitVal c) 0

/-- The character for a decimal digit. -/
def digitChar (d : Nat) : Char := Char.ofNat (48 + d)

/-- Fuel-indexed decimal rendering; `fuel` bounds the number of digits. -/
def natDigitsAux : Nat → Nat → List Char
  | 0, _ => []
  | fuel + 1, n =>
    if n < 10 then [digitChar n]
    else natDigitsAux fuel (n / 10) ++ [digitChar (n % 10)]

/-- Decimal digit string of a natural number (no leading zeros except for 0
itself). -/
def natDigits (n : Nat) : List Char := natDigitsAux (n + 1) n

/-- Substring-at-start test (`strings.HasPrefix` on char lists). -/
def startsWithChars : List Char → List Char → Bool
  | _, [] => true
  | [], _ :: _ => false
  | a :: as, b :: bs => a = b && startsWithChars as bs

/-- Substring containment test (`strings.Contains` on char lists). -/
def containsChars : List Char → List Char → Bool
  | hay, sub =>
    startsWithChars hay sub ||
      (match hay with
       | [] => false
       | _ :: t => containsChars t sub)

/-! ## Normalizer: `ParseAmount` (src/unnamed/part_002, package normalizer)

`ParseAmount` keeps only `[0-9,.\-]`, strips one leading minus, removes the
thousands separator and normalises the decimal separator according to the
dialect, parses the residue as a decimal number and rounds `value * 100`
half away from zero to integer cents. -/

/-- The character filter of `ParseAmount`: digits, comma, period, minus. -/
def keepAmountChar (c : Char) : Bool :=
  uIsDigit c || c = ',' || c = '.' || c = '-'

/-- `strings.TrimPrefix(s, "-")` together with the `strings.HasPrefix`
test that precedes it in `ParseAmount`. -/
def stripLeadingMinus (cs : List Char) : Bool × List Char :=
  if cs.head? = some '-' then (true, cs.tail) else (false, cs)

/-- The dialect normalisation of `ParseAmount`: European input drops periods
and turns commas into periods; American input drops commas. -/
def amountTransform (cs : List Char) (isEuropean : Bool) : List Char :=
  if isEuropean then
    ((cs.filter fun c => !(c = '.')).map fun c => if c = ',' then '.' else c)
  else cs.filter fun c => !(c = ',')

/-- Exact model of `strconv.ParseFloat` on the strings reachable inside
`ParseAmount` (digits, at most one period, at most one leading sign): returns
the sign, the integer mantissa and the number of fraction digits, so that the
parsed value is `(-1)^sign * mantissa / 10^scale`.  Strings that Go rejects
(empty, bare sign or period, a second period, stray minus) yield `none`. -/
def goParseFloatChars (cs : List Char) : Option (Bool × Nat × Nat) :=
  let neg := cs.head? = some '-'
  let rest := if cs.head? = some '-' || cs.head? = some '+' then cs.tail else cs
  let intPart := rest.takeWhile fun c => !(c = '.')
  match rest.dropWhile fun c => !(c = '.') with
  | [] =>
    if intPart.all uIsDigit ∧ intPart ≠ [] then
      some (neg, decToNat intPart, 0)
    else none
  | _ :: frac =>
    if frac.all uIsDigit ∧ intPart.all uIsDigit ∧ (intPart ≠ [] ∨ frac ≠ []) then
      some (neg, decToNat intPart * 10 ^ frac.length + decToNat frac, frac.length)
    else none

/-- Round `a / b` (with `b > 0`) to the nearest natural number, halves
rounded up; composed with the sign handling below this is exactly
`math.Round` (half away from zero) on exact rationals. -/
def roundHalfNat (a b : Nat) : Nat := (2 * a + b) / (2 * b)

/-- `ParseAmount` on the underlying character list. -/
def parseAmountChars (cs : List Char) (isEuropean : Bool) : Except String Int :=
  if cs = [] then .ok 0
  else
    let cleaned := cs.filter keepAmountChar
    if cleaned = [] then .ok 0
    else
      let sm := stripLeadingMinus cleaned
      match goParseFloatChars (amountTransform sm.2 isEuropean) with
      | none => .error "invalid amount format"
      | some (neg, m, k) =>
        let cents : Int := Int.ofNat (roundHalfNat (m * 100) (10 ^ k))
        let cents := if neg then -cents else cents
        .ok (if sm.1 then -cents else cents)

/-- `ParseAmount` converts a string amount to cents, in the European
(`1.234,56`) or American (`1,234.56`) dialect; empty or symbol-only input
yields 0 without error. -/
def ParseAmount (raw : String) (isEuropean : Bool) : Except String Int :=
  parseAmountChars raw.data isEuropean

/-- `NormalizeDebitCredit` merges separate debit and credit columns into a
single signed amount: a non-empty (after trimming) debit wins and is forced
non-positive, otherwise a non-empty credit is forced non-negative, otherwise
the amount is 0. -/
def NormalizeDebitCredit (debitStr creditStr : String) (isEuropean : Bool) :
    Except String Int :=
  let d := trimSpace debitStr
  let c := trimSpace creditStr
  if d ≠ "" then
    match ParseAmount d isEuropean with
    | .error e => .error e
    | .ok amount => .ok (if 0 < amount then -amount else amount)
  else if c ≠ "" then
    match ParseAmount c isEuropean with
    | .error e => .error e
    | .ok amount => .ok (if amount < 0 then -amount else amount)
  else .ok 0

/-! ### Decimal rendering, for the round-trip property

`formatCents` renders an integer amount of minor units as the canonical
decimal string of the chosen dialect (sign, integer part, decimal separator,
two fraction digits); this is the "formatting with the chosen dialect" of
the specification's round-trip invariant. -/

/-- Two-digit zero-padded rendering of `r < 100`. -/
def pad2 (r : Nat) : List Char := [digitChar (r / 10), digitChar (r % 10)]

/-- Render integer cents as a decimal string in the chosen dialect. -/
def formatCents (cents : Int) (eu : Bool) : String :=
  let n := cents.natAbs
  String.mk ((if cents < 0 then ['-'] else []) ++
    natDigits (n / 100) ++ (if eu then ',' else '.') :: pad2 (n % 100))

example : formatCents (-4523) true = "-45,23" := by rfl
example : formatCents 123456 false = "1234.56" := by rfl

/-! ### Arithmetic and character lemmas -/

theorem charOfNat_toNat {n : Nat} (h : n.isValidChar) :
    (Char.ofNat n).toNat = n := by
  simp [Char.ofNat, h, Char.ofNatAux, Char.toNat, UInt32.toNat, BitVec.ofNatLt]

theorem digitChar_isDigit {d : Nat} (h : d < 10) :
    uIsDigit (digitChar d) = true := by
  interval_cases d <;> decide

theorem digitVal_digitChar {d : Nat} (h : d < 10) : digitVal (digitChar d) = d := by
  interval_cases d <;> decide

theorem uIsDigit_ne_minus {c : Char} (h : uIsDigit c = true) : c ≠ '-' := by
  intro he; rw [he] at h; exact absurd h (by decide)

theorem uIsDigit_ne_plus {c : Char} (h : uIsDigit c = true) : c ≠ '+' := by
  intro he; rw [he] at h; exact absurd h (by decide)

theorem uIsDigit_ne_comma {c : Char} (h : uIsDigit c = true) : c ≠ ',' := by
  intro he; rw [he] at h; exact absurd h (by decide)

theorem uIsDigit_ne_period {c : Char} (h : uIsDigit c = true) : c ≠ '.' := by
  intro he; rw [he] at h; exact absurd h (by decide)

theorem keepAmountChar_of_digit {c : Char} (h : uIsDigit c = true) :
    keepAmountChar c = true := by
  simp [keepAmountChar, h]

theorem decToNat_append_digit (l : List Char) (c : Char) :
    decToNat (l ++ [c]) = 10 * decToNat l + digitVal c := by
  simp [decToNat, List.foldl_append]

theorem natDigitsAux_spec :
    ∀ fuel n, n < 10 ^ (fuel + 1) →
      natDigitsAux (fuel + 1) n ≠ [] ∧
      (∀ c ∈ natDigitsAux (fuel + 1) n, uIsDigit c = true) ∧
      decToNat (natDigitsAux (fuel + 1) n) = n := by
  intro fuel
  induction fuel with
  | zero =>
    intro n hn
    have h10 : n < 10 := by simpa using hn
    refine ⟨by simp [natDigitsAux, h10], ?_, ?_⟩
    · intro c hc
      simp [natDigitsAux, h10] at hc
      subst hc; exact digitChar_isDigit h10
    · simp [natDigitsAux, h10, decToNat, digitVal_digitChar h10]
  | succ fuel ih =>
    intro n hn
    by_cases h10 : n < 10
    · refine ⟨by simp [natDigitsAux, h10], ?_, ?_⟩
      · intro c hc
        simp [natDigitsAux, h10] at hc
        subst hc; exact digitChar_isDigit h10
      · simp [natDigitsAux, h10, decToNat, digitVal_digitChar h10]
    · have hdiv : n / 10 < 10 ^ (fuel + 1) := by
        rw [Nat.div_lt_iff_lt_mul (by omega)]
        calc n < 10 ^ (fuel + 1 + 1) := hn
        _ = 10 ^ (fuel + 1) * 10 := by rw [pow_succ]
      obtain ⟨hne, hdig, hval⟩ := ih (n / 10) hdiv
      have heq : natDigitsAux (fuel + 1 + 1) n =
          natDigitsAux (fuel + 1) (n / 10) ++ [digitChar (n % 10)] := by
        simp [natDigitsAux, h10]
      refine ⟨by simp [heq], ?_, ?_⟩
      · intro c hc
        rw [heq] at hc
        simp only [List.mem_append, List.mem_singleton] at hc
        rcases hc with hc | hc
        · exact hdig c hc
        · subst hc; exact digitChar_isDigit (Nat.mod_lt _ (by omega))
      · rw [heq, decToNat_append_digit, hval,
          digitVal_digitChar (Nat.mod_lt _ (by omega))]
        omega

theorem natDigits_spec (n : Nat) :
    natDigits n ≠ [] ∧ (∀ c ∈ natDigits n, uIsDigit c = true) ∧
      decToNat (natDigits n) = n := by
  have hb : n < 10 ^ (n + 1) :=
    lt_of_lt_of_le (Nat.lt_pow_self (by norm_num) n)
      (Nat.pow_le_pow_right (by norm_num) (by omega))
  exact natDigitsAux_spec n n hb

theorem natDigits_ne_nil (n : Nat) : natDigits n ≠ [] := (natDigits_spec n).1

theorem natDigits_all_digits (n : Nat) : ∀ c ∈ natDigits n, uIsDigit c = true :=
  (natDigits_spec n).2.1

theorem decToNat_natDigits (n : Nat) : decToNat (natDigits n) = n :=
  (natDigits_spec n).2.2

theorem pad2_all_digits {r : Nat} (h : r < 100) : ∀ c ∈ pad2 r, uIsDigit c = true := by
  intro c hc
  simp only [pad2, List.mem_cons, List.mem_singleton, List.not_mem_nil, or_false] at hc
  rcases hc with hc | hc <;> subst hc
  · exact digitChar_isDigit (by omega)
  · exact digitChar_isDigit (Nat.mod_lt _ (by omega))

theorem decToNat_pad2 {r : Nat} (h : r < 100) : decToNat (pad2 r) = r := by
  simp [pad2, decToNat, digitVal_digitChar (show r / 10 < 10 by omega),
    digitVal_digitChar (show r % 10 < 10 from Nat.mod_lt _ (by omega))]
  omega

theorem roundHalfNat_mul_hundred (n : Nat) : roundHalfNat (n * 100) 100 = n := by
  unfold roundHalfNat
  have h1 : 2 * (n * 100) + 100 = 100 + 200 * n := by ring
  have h2 : 2 * 100 = 200 := by norm_num
  rw [h1, h2, Nat.add_mul_div_left _ _ (by norm_num)]
  norm_num

theorem takeWhile_append_cons {p : Char → Bool} {a : List Char} {x : Char}
    (b : List Char) (ha : ∀ c ∈ a, p c = true) (hx : p x = false) :
    (a ++ x :: b).takeWhile p = a ∧ (a ++ x :: b).dropWhile p = x :: b := by
  induction a with
  | nil => simp [List.takeWhile_cons, List.dropWhile_cons, hx]
  | cons c cs ih =>
    have hc : p c = true := ha c (by simp)
    have ih2 := ih fun d hd => ha d (by simp [hd])
    simp [List.takeWhile_cons, List.dropWhile_cons, hc, ih2.1, ih2.2]

theorem map_eq_self {f : Char → Char} {l : List Char} (h : ∀ c ∈ l, f c = c) :
    l.map f = l := by
  induction l with
  | nil => rfl
  | cons c cs ih =>
    simp only [List.map_cons, h c (by simp), List.cons.injEq, true_and]
    exact ih fun d hd => h d (by simp [hd])

/-! ### The round-trip lemmas -/

theorem stripLeadingMinus_of_head {cs : List Char} {d : Char} {tl : List Char}
    (h : cs = d :: tl) (hd : d ≠ '-') : stripLeadingMinus cs = (false, cs) := by
  subst h; simp [stripLeadingMinus, hd]

theorem goParseFloat_digits (a f : List Char)
    (ha : ∀ c ∈ a, uIsDigit c = true) (hf : ∀ c ∈ f, uIsDigit c = true)
    (hne : a ≠ []) :
    goParseFloatChars (a ++ '.' :: f) =
      some (false, decToNat a * 10 ^ f.length + decToNat f, f.length) := by
  obtain ⟨d, tl, hds⟩ := List.exists_cons_of_ne_nil hne
  have hd : uIsDigit d = true := ha d (by rw [hds]; simp)
  have hhead : (a ++ '.' :: f).head? = some d := by rw [hds]; rfl
  have htw := takeWhile_append_cons (p := fun c => !(c = '.')) (a := a) (x := '.') f
    (fun c hc => by simp [uIsDigit_ne_period (ha c hc)]) (by simp)
  simp only [goParseFloatChars, hhead, Option.some.injEq, htw.1, htw.2]
  rw [if_neg (by simp [uIsDigit_ne_minus hd, uIsDigit_ne_plus hd])]
  simp only [htw.1, htw.2]
  rw [if_pos ⟨List.all_eq_true.mpr hf, List.all_eq_true.mpr ha, Or.inl hne⟩]
  simp [uIsDigit_ne_minus hd]

theorem amountTransform_format (ds p2 : List Char) (eu : Bool)
    (hds : ∀ c ∈ ds, uIsDigit c = true) (hp2 : ∀ c ∈ p2, uIsDigit c = true) :
    amountTransform (ds ++ (if eu then ',' else '.') :: p2) eu = ds ++ '.' :: p2 := by
  cases eu with
  | true =>
    simp only [if_pos trivial, amountTransform, if_true]
    have hfil : (ds ++ ',' :: p2).filter (fun c => !(c = '.')) = ds ++ ',' :: p2 := by
      apply List.filter_eq_self.mpr
      intro c hc
      simp only [List.mem_append, List.mem_cons] at hc
      rcases hc with hc | hc | hc
      · simp [uIsDigit_ne_period (hds c hc)]
      · subst hc; decide
      · simp [uIsDigit_ne_period (hp2 c hc)]
    rw [hfil, List.map_append, List.map_cons,
      map_eq_self (fun c hc => by simp [uIsDigit_ne_comma (hds c hc)]),
      map_eq_self (fun c hc => by simp [uIsDigit_ne_comma (hp2 c hc)])]
    rfl
  | false =>
    simp only [amountTransform, if_false, Bool.false_eq_true]
    apply List.filter_eq_self.mpr
    intro c hc
    simp only [List.mem_append, List.mem_cons] at hc
    rcases hc with hc | hc | hc
    · simp [uIsDigit_ne_comma (hds c hc)]
    · subst hc; decide
    · simp [uIsDigit_ne_comma (hp2 c hc)]

theorem keepAmountChar_sep (eu : Bool) :
    keepAmountChar (if eu then ',' else '.') = true := by
  cases eu <;> decide

theorem filter_keep_format (ds p2 : List Char) (eu : Bool)
    (hds : ∀ c ∈ ds, uIsDigit c = true) (hp2 : ∀ c ∈ p2, uIsDigit c = true) :
    (ds ++ (if eu then ',' else '.') :: p2).filter keepAmountChar =
      ds ++ (if eu then ',' else '.') :: p2 := by
  apply List.filter_eq_self.mpr
  intro c hc
  simp only [List.mem_append, List.mem_cons] at hc
  rcases hc with hc | hc | hc
  · exact keepAmountChar_of_digit (hds c hc)
  · subst hc; exact keepAmountChar_sep eu
  · exact keepAmountChar_of_digit (hp2 c hc)

theorem parseAmountChars_format (n : Nat) (eu : Bool) :
    parseAmountChars
      (natDigits (n / 100) ++ (if eu then ',' else '.') :: pad2 (n % 100)) eu =
      .ok (n : Int) := by
  have hds := natDigits_all_digits (n / 100)
  have hmod : n % 100 < 100 := Nat.mod_lt _ (by omega)
  have hp2 := pad2_all_digits hmod
  obtain ⟨d, tl, hcons⟩ := List.exists_cons_of_ne_nil (natDigits_ne_nil (n / 100))
  have hd : uIsDigit d = true := hds d (by rw [hcons]; simp)
  have hshape : natDigits (n / 100) ++ (if eu then ',' else '.') :: pad2 (n % 100) =
      d :: (tl ++ (if eu then ',' else '.') :: pad2 (n % 100)) := by
    rw [hcons]; rfl
  have hne : natDigits (n / 100) ++ (if eu then ',' else '.') :: pad2 (n % 100) ≠ [] := by
    rw [hshape]; simp
  simp only [parseAmountChars, if_neg hne,
    filter_keep_format _ _ _ hds hp2,
    stripLeadingMinus_of_head hshape (uIsDigit_ne_minus hd),
    amountTransform_format _ _ _ hds hp2,
    goParseFloat_digits _ _ hds hp2 (natDigits_ne_nil (n / 100)),
    decToNat_natDigits, decToNat_pad2 hmod]
  have hlen : (pad2 (n % 100)).length = 2 := by rfl
  rw [hlen]
  have hm : n / 100 * 10 ^ 2 + n % 100 = n := by omega
  rw [hm]
  have hpow : (10 : Nat) ^ 2 = 100 := by norm_num
  rw [hpow, roundHalfNat_mul_hundred]
  rfl

theorem parseAmountChars_format_neg (n : Nat) (eu : Bool) :
    parseAmountChars
      ('-' :: (natDigits (n / 100) ++ (if eu then ',' else '.') :: pad2 (n % 100)))
      eu = .ok (-(n : Int)) := by
  have hds := natDigits_all_digits (n / 100)
  have hmod : n % 100 < 100 := Nat.mod_lt _ (by omega)
  have hp2 := pad2_all_digits hmod
  have hfil : ('-' :: (natDigits (n / 100) ++
      (if eu then ',' else '.') :: pad2 (n % 100))).filter keepAmountChar =
      '-' :: (natDigits (n / 100) ++ (if eu then ',' else '.') :: pad2 (n % 100)) := by
    apply List.filter_eq_self.mpr
    intro c hc
    simp only [List.mem_cons] at hc
    rcases hc with hc | hc
    · subst hc; decide
    · have := filter_keep_format (natDigits (n / 100)) (pad2 (n % 100)) eu hds hp2
      exact List.filter_eq_self.mp this c hc
  have hstrip : stripLeadingMinus ('-' :: (natDigits (n / 100) ++
      (if eu then ',' else '.') :: pad2 (n % 100))) =
      (true, natDigits (n / 100) ++ (if eu then ',' else '.') :: pad2 (n % 100)) := by
    simp [stripLeadingMinus]
  simp only [parseAmountChars, if_neg (by simp : ¬('-' :: (natDigits (n / 100) ++
      (if eu then ',' else '.') :: pad2 (n % 100)) = [])),
    hfil, hstrip,
    amountTransform_format _ _ _ hds hp2,
    goParseFloat_digits _ _ hds hp2 (natDigits_ne_nil (n / 100)),
    decToNat_natDigits, decToNat_pad2 hmod]
  have hlen : (pad2 (n % 100)).length = 2 := by rfl
  rw [hlen]
  have hm : n / 100 * 10 ^ 2 + n % 100 = n := by omega
  rw [hm]
  have hpow : (10 : Nat) ^ 2 = 100 := by norm_num
  rw [hpow, roundHalfNat_mul_hundred]
  rfl

theorem data_mk (l : List Char) : (String.mk l).data = l := rfl

/-- C3: `ParseAmount` round-trips integer cent values: for every amount of
minor units in `[-10^12, 10^12]` and every dialect flag, rendering the amount
as a decimal string in the chosen dialect (European comma-decimal or American
period-decimal) and then parsing it returns exactly the original integer.
The magnitude bound is the range on which the Go float64 pipeline is exact. -/
theorem ParseAmount_roundTrip (cents : Int) (eu : Bool)
    (hlo : -(10 ^ 12) ≤ cents) (hhi : cents ≤ 10 ^ 12) :
    ParseAmount (formatCents cents eu) eu = .ok cents := by
  unfold ParseAmount formatCents
  by_cases hneg : cents < 0
  · simp only [if_pos hneg, data_mk, List.singleton_append]
    rw [List.cons_append, parseAmountChars_format_neg]
    congr 1
    omega
  · simp only [if_neg hneg, data_mk, List.nil_append]
    rw [parseAmountChars_format]
    congr 1
    omega

/-- Witness for the round-trip theorem at `-4523` cents, European dialect. -/
theorem ParseAmount_roundTrip_witness :
    (-(10 ^ 12) ≤ (-4523 : Int)) ∧ ((-4523 : Int) ≤ 10 ^ 12) ∧
      ParseAmount (formatCents (-4523) true) true = .ok (-4523) :=
  ⟨by decide, by decide, ParseAmount_roundTrip (-4523) true (by decide) (by decide)⟩

/-- C5: `NormalizeDebitCredit` parses a non-empty (after trimming) debit
column and forces the result non-positive; otherwise a non-empty credit
column is parsed and forced non-negative; if both are empty the result is 0;
and when both are non-empty the debit column wins — the credit value is
ignored and the call does not abort. -/
theorem NormalizeDebitCredit_spec (d c : String) (eu : Bool) :
    (trimSpace d ≠ "" →
      NormalizeDebitCredit d c eu =
        (ParseAmount (trimSpace d) eu).map fun a => if 0 < a then -a else a) ∧
    (trimSpace d = "" → trimSpace c ≠ "" →
      NormalizeDebitCredit d c eu =
        (ParseAmount (trimSpace c) eu).map fun a => if a < 0 then -a else a) ∧
    (trimSpace d = "" → trimSpace c = "" → NormalizeDebitCredit d c eu = .ok 0) ∧
    (trimSpace d ≠ "" → NormalizeDebitCredit d c eu = NormalizeDebitCredit d "" eu) ∧
    (∀ v : Int, trimSpace d ≠ "" → NormalizeDebitCredit d c eu = .ok v → v ≤ 0) ∧
    (∀ v : Int, trimSpace d = "" → NormalizeDebitCredit d c eu = .ok v → 0 ≤ v) := by
  refine ⟨?_, ?_, ?_, ?_, ?_, ?_⟩
  · intro hd
    unfold NormalizeDebitCredit
    rw [if_pos hd]
    cases ParseAmount (trimSpace d) eu <;> rfl
  · intro hd hc
    unfold NormalizeDebitCredit
    rw [if_neg (by simp [hd]), if_pos hc]
    cases ParseAmount (trimSpace c) eu <;> rfl
  · intro hd hc
    unfold NormalizeDebitCredit
    rw [if_neg (by simp [hd]), if_neg (by simp [hc])]
  · intro hd
    unfold NormalizeDebitCredit
    rw [if_pos hd, if_pos hd]
  · intro v hd hv
    unfold NormalizeDebitCredit at hv
    rw [if_pos hd] at hv
    cases hp : ParseAmount (trimSpace d) eu with
    | error e => rw [hp] at hv; exact absurd hv (by simp)
    | ok a =>
      rw [hp] at hv
      simp only [Except.ok.injEq] at hv
      subst hv
      split <;> omega
  · intro v hd hv
    unfold NormalizeDebitCredit at hv
    rw [if_neg (by simp [hd])] at hv
    by_cases hc : trimSpace c = ""
    · rw [if_neg (by simp [hc])] at hv
      simp only [Except.ok.injEq] at hv
      omega
    · rw [if_pos hc] at hv
      cases hp : ParseAmount (trimSpace c) eu with
      | error e => rw [hp] at hv; exact absurd hv (by simp)
      | ok a =>
        rw [hp] at hv
        simp only [Except.ok.injEq] at hv
        subst hv
        split <;> omega

/-- Witness for `NormalizeDebitCredit_spec`: a European-format debit of
`45,23` wins over a simultaneously populated credit column and comes out
non-positive; an empty debit with credit `500,00` comes out non-negative. -/
theorem NormalizeDebitCredit_spec_witness :
    (trimSpace "45,23" ≠ "" ∧ ((-4523 : Int) ≤ 0)) ∧
      (trimSpace "" = "" ∧ ((0 : Int) ≤ 50000)) :=
  ⟨⟨by decide,
      (NormalizeDebitCredit_spec "45,23" "1,00" true).2.2.2.2.1 (-4523)
        (by decide) (by rfl)⟩,
    ⟨by decide,
      (NormalizeDebitCredit_spec "" "500,00" true).2.2.2.2.2 50000
        (by decide) (by rfl)⟩⟩

/-- C10: a non-empty input containing no digit, comma, period or minus (for
example `N/A`) makes `ParseAmount` return 0 with no error, exactly as for the
empty string; `ErrInvalidAmount` is only possible when the characters kept by
the `[0-9,.\-]` filter form a non-empty string whose dialect-normalised form
fails numeric parsing. -/
theorem ParseAmount_symbolOnly (raw : String) (eu : Bool) :
    (raw.data ≠ [] → (∀ ch ∈ raw.data, keepAmountChar ch = false) →
      ParseAmount raw eu = .ok 0) ∧
    (∀ e, ParseAmount raw eu = .error e →
      raw.data.filter keepAmountChar ≠ [] ∧
      goParseFloatChars
        (amountTransform (stripLeadingMinus (raw.data.filter keepAmountChar)).2 eu)
        = none) := by
  constructor
  · intro hne hall
    have hfil : raw.data.filter keepAmountChar = [] := by
      rw [List.filter_eq_nil_iff]
      intro a ha
      simp [hall a ha]
    simp [ParseAmount, parseAmountChars, hfil]
  · intro e h
    unfold ParseAmount parseAmountChars at h
    by_cases h1 : raw.data = []
    · simp [h1] at h
    · rw [if_neg h1] at h
      by_cases h2 : raw.data.filter keepAmountChar = []
      · simp [h2] at h
      · refine ⟨h2, ?_⟩
        cases hgo : goParseFloatChars
            (amountTransform (stripLeadingMinus (raw.data.filter keepAmountChar)).2 eu) with
        | none => rfl
        | some v => simp [h2, hgo] at h

/-- Witness for `ParseAmount_symbolOnly` at the literal input `N/A`. -/
theorem ParseAmount_symbolOnly_witness :
    ("N/A".data ≠ [] ∧ (∀ ch ∈ ("N/A" : String).data, keepAmountChar ch = false)) ∧
      ParseAmount "N/A" true = .ok 0 :=
  ⟨⟨by decide, by decide⟩,
    (ParseAmount_symbolOnly "N/A" true).1 (by decide) (by decide)⟩

example : ParseAmount "1.234,56" true = .ok 123456 := by rfl
example : ParseAmount "1,234.56" false = .ok 123456 := by rfl
example : ParseAmount "-45,23" true = .ok (-4523) := by rfl
example : ParseAmount "" true = .ok 0 := by rfl
example : ParseAmount "N/A" true = .ok 0 := by rfl
example : ParseAmount "1.2.3" false = .error "invalid amount format" := by rfl
example : NormalizeDebitCredit " 45,23 " "" true = .ok (-4523) := by rfl
example : NormalizeDebitCredit "" "500,00" true = .ok 50000 := by rfl
example : NormalizeDebitCredit "" "" true = .ok 0 := by rfl

/-! ## Sniffer: `generateFingerprint` (src/unnamed/part_002, package sniffer)

For each header the fingerprint keeps only letters and digits, lower-cased;
headers that become empty are dropped; the remaining tokens are joined with
`|` and hashed (SHA-256, hex).  The hash is modelled as an injective
encoding, see the file header. -/

/-- The rune filter of `generateFingerprint`: letters and digits survive. -/
def keepAlnum (c : Char) : Bool := uIsLetter c || uIsDigit c

/-- Normalisation of one header inside `generateFingerprint`:
`strings.Map` keeping letters and digits, lower-cased. -/
def normalizeHeaderChars (h : List Char) : List Char :=
  (h.filter keepAlnum).map uToLower

/-- The token sequence `generateFingerprint` hashes: the normalised headers
with the empty ones dropped, in order. -/
def normalizeHeaders (headers : List String) : List (List Char) :=
  (headers.map fun h => normalizeHeaderChars h.data).filter fun t => t ≠ []

/-- Join with the `|` separator (`strings.Join(normalized, "|")`). -/
def joinBar : List (List Char) → List Char
  | [] => []
  | [t] => t
  | t :: rest => t ++ '|' :: joinBar rest

/-- SHA-256 followed by hex encoding, modelled as an injective encoding of
the input (the digest is a deterministic function of the input and the model
assumes no collisions). -/
def sha256Hex (s : String) : String := s

/-- `generateFingerprint` creates the schema hash from the header names. -/
def generateFingerprint (headers : List String) : String :=
  sha256Hex (String.mk (joinBar (normalizeHeaders headers)))

example :
    generateFingerprint ["Data mov.", "DESCRIÇÃO", "Débito"] =
      generateFingerprint ["data mov.", "descrição", "débito"] := by rfl

example :
    generateFingerprint ["Data mov.", "Descrição"] ≠
      generateFingerprint ["Date", "Description"] := by decide

/-! ### Injectivity of the joined token sequence -/

theorem uToLower_ne_bar {c : Char} (h : keepAlnum c = true) : uToLower c ≠ '|' := by
  unfold uToLower
  split_ifs with h1 h2
  · intro heq
    have hv : (c.toNat + 0x20).isValidChar := Or.inl (by omega)
    have h3 := congrArg Char.toNat heq
    rw [charOfNat_toNat hv] at h3
    have hbar : ('|').toNat = 124 := by decide
    rw [hbar] at h3
    omega
  · intro heq
    have hv : (c.toNat + 0x20).isValidChar := Or.inl (by omega)
    have h3 := congrArg Char.toNat heq
    rw [charOfNat_toNat hv] at h3
    have hbar : ('|').toNat = 124 := by decide
    rw [hbar] at h3
    omega
  · intro heq
    rw [heq] at h
    exact absurd h (by decide)

theorem normalizeHeaderChars_bar_free (h : List Char) :
    '|' ∉ normalizeHeaderChars h := by
  unfold normalizeHeaderChars
  intro hmem
  obtain ⟨c, hc, hlc⟩ := List.mem_map.mp hmem
  exact uToLower_ne_bar (List.of_mem_filter hc) hlc

theorem normalizeHeaders_tokens {headers : List String} {t : List Char}
    (ht : t ∈ normalizeHeaders headers) : t ≠ [] ∧ '|' ∉ t := by
  unfold normalizeHeaders at ht
  have hne := List.of_mem_filter ht
  have hmem := List.mem_of_mem_filter ht
  obtain ⟨h, _, hmap⟩ := List.mem_map.mp hmem
  refine ⟨by simpa using hne, ?_⟩
  rw [← hmap]
  exact normalizeHeaderChars_bar_free h.data

theorem append_bar_inj :
    ∀ (a b u v : List Char), '|' ∉ a → '|' ∉ b →
      a ++ '|' :: u = b ++ '|' :: v → a = b ∧ u = v := by
  intro a
  induction a with
  | nil =>
    intro b u v _ hb heq
    cases b with
    | nil => simpa using heq
    | cons y ys =>
      simp only [List.nil_append, List.cons_append, List.cons.injEq] at heq
      exact absurd
        (show ('|' : Char) ∈ y :: ys by rw [← heq.1]; exact List.mem_cons_self _ _) hb
  | cons x xs ih =>
    intro b u v ha hb heq
    cases b with
    | nil =>
      simp only [List.cons_append, List.nil_append, List.cons.injEq] at heq
      exact absurd
        (show ('|' : Char) ∈ x :: xs by rw [heq.1]; exact List.mem_cons_self _ _) ha
    | cons y ys =>
      simp only [List.cons_append, List.cons.injEq] at heq
      have ha2 : '|' ∉ xs := fun hm => ha (List.mem_cons_of_mem _ hm)
      have hb2 : '|' ∉ ys := fun hm => hb (List.mem_cons_of_mem _ hm)
      obtain ⟨h1, h2⟩ := ih ys u v ha2 hb2 heq.2
      exact ⟨by rw [heq.1, h1], h2⟩

theorem joinBar_inj :
    ∀ t1 t2 : List (List Char),
      (∀ t ∈ t1, t ≠ [] ∧ '|' ∉ t) → (∀ t ∈ t2, t ≠ [] ∧ '|' ∉ t) →
      joinBar t1 = joinBar t2 → t1 = t2 := by
  intro t1
  induction t1 with
  | nil =>
    intro t2 _ hp2 heq
    cases t2 with
    | nil => rfl
    | cons y ys =>
      cases ys with
      | nil =>
        exact absurd heq.symm (hp2 y (by simp)).1
      | cons z zs =>
        exfalso
        have hjy : joinBar (y :: z :: zs) = y ++ '|' :: joinBar (z :: zs) := rfl
        rw [hjy, show joinBar [] = [] from rfl] at heq
        exact absurd heq.symm (by simp)
  | cons x xs ih =>
    intro t2 hp1 hp2 heq
    cases xs with
    | nil =>
      cases t2 with
      | nil => exact absurd heq (hp1 x (by simp)).1
      | cons y ys =>
        cases ys with
        | nil => simpa [joinBar] using heq
        | cons z zs =>
          exfalso
          have hx : joinBar [x] = x := rfl
          have hy : joinBar (y :: z :: zs) = y ++ '|' :: joinBar (z :: zs) := rfl
          rw [hx, hy] at heq
          have : ('|' : Char) ∈ x := by rw [heq]; simp
          exact (hp1 x (by simp)).2 this
    | cons x2 xs2 =>
      cases t2 with
      | nil =>
        exfalso
        have hx : joinBar (x :: x2 :: xs2) = x ++ '|' :: joinBar (x2 :: xs2) := rfl
        rw [hx, show joinBar [] = [] from rfl] at heq
        exact absurd heq (by simp)
      | cons y ys =>
        cases ys with
        | nil =>
          exfalso
          have hx : joinBar (x :: x2 :: xs2) = x ++ '|' :: joinBar (x2 :: xs2) := rfl
          have hy : joinBar [y] = y := rfl
          rw [hx, hy] at heq
          have : ('|' : Char) ∈ y := by rw [← heq]; simp
          exact (hp2 y (by simp)).2 this
        | cons z zs =>
          have hx : joinBar (x :: x2 :: xs2) = x ++ '|' :: joinBar (x2 :: xs2) := rfl
          have hy : joinBar (y :: z :: zs) = y ++ '|' :: joinBar (z :: zs) := rfl
          rw [hx, hy] at heq
          obtain ⟨h1, h2⟩ := append_bar_inj x y _ _ (hp1 x (by simp)).2 (hp2 y (by simp)).2 heq
          have h3 := ih (z :: zs) (fun t ht => hp1 t (by simp [ht]))
            (fun t ht => hp2 t (by simp [ht])) h2
          rw [h1, h3]

/-- C4: `generateFingerprint` is invariant under case changes and under
inserting or removing punctuation or whitespace inside headers — two header
lists produce the same fingerprint exactly when their per-header sequences of
lower-cased alphanumeric code points, after dropping headers that become
empty, coincide; in particular the fingerprints differ whenever the ordered
sequences of alphanumeric header tokens differ. -/
theorem generateFingerprint_eq_iff (h1 h2 : List String) :
    generateFingerprint h1 = generateFingerprint h2 ↔
      normalizeHeaders h1 = normalizeHeaders h2 := by
  constructor
  · intro heq
    have hj : joinBar (normalizeHeaders h1) = joinBar (normalizeHeaders h2) := by
      have := congrArg String.data heq
      simpa [generateFingerprint, sha256Hex, data_mk] using this
    exact joinBar_inj _ _ (fun t ht => normalizeHeaders_tokens ht)
      (fun t ht => normalizeHeaders_tokens ht) hj
  · intro heq
    unfold generateFingerprint
    rw [heq]

/-! ## Sniffer: `findHeaderRow` (src/unnamed/part_002, package sniffer)

`findHeaderRow` walks the lines, breaking out as soon as the zero-based
index exceeds 20 (so indices 0 through 20 — twenty-one lines — are
examined), and returns the first line that contains a header keyword and in
which some candidate delimiter occurs at least 3 times, together with that
delimiter and the line's index. -/

/-- The multilingual header keyword list of the sniffer. -/
def headerKeywords : List String :=
  ["data mov", "data mov.", "descrição", "descricao", "débito", "debito",
   "crédito", "credito", "data valor", "saldo", "categoria",
   "date", "description", "amount", "debit", "credit", "balance", "category",
   "merchant",
   "fecha", "descripción", "descripcion", "importe", "cargo", "abono"]

/-- Keyword test of one line: `strings.Contains(strings.ToLower(line), kw)`
for some keyword. -/
def hasHeaderKeyword (line : String) : Bool :=
  headerKeywords.any fun kw => containsChars (line.data.map uToLower) kw.data

/-- The candidate delimiters, in the order the sniffer tries them. -/
def delimiterCandidates : List Char := [';', '\t', ',', '|']

/-- The loop of `findHeaderRow`; the index argument is the zero-based line
number of the first list element. -/
def findHeaderRowAux : List String → Nat → Option (Char × Nat)
  | [], _ => none
  | line :: rest, i =>
    if 20 < i then none
    else if hasHeaderKeyword line then
      match delimiterCandidates.findSome?
          (fun d => if 3 ≤ line.data.count d then some d else none) with
      | some d => some (d, i)
      | none => findHeaderRowAux rest (i + 1)
    else findHeaderRowAux rest (i + 1)

/-- `findHeaderRow` locates the header row and its delimiter; `none` models
the `ErrNoHeadersFound` result that `DetectConfig` propagates. -/
def findHeaderRow (lines : List String) : Option (Char × Nat) :=
  findHeaderRowAux lines 0

example :
    findHeaderRow ["Date,Description,Amount,Category",
      "01/02/2024,Starbucks,-5.40,Food"] = some (',', 0) := by rfl

example : findHeaderRow ["Just some random text", "Without any headers"] = none := by
  rfl

/-- A file whose first twenty lines (indices 0–19) contain no header
keyword, with a header row at index 20 (the twenty-first line). -/
def lateHeaderLines : List String :=
  List.replicate 20 "x" ++ ["Date;Description;Amount;Balance"]

/-- C6 (failing input): the claim says at most the first 20 lines are
examined, and that an input with no qualifying line among those 20 makes
`DetectConfig` fail with `ErrNoHeadersFound`; but on `lateHeaderLines` —
whose first 20 lines contain no keyword — the code still finds the header at
zero-based index 20, because the loop breaks only when the index exceeds 20
(`i > 20`), contradicting its own comment. -/
theorem findHeaderRow_scans_twentyfirst_line :
    ((lateHeaderLines.take 20).all fun l => !(hasHeaderKeyword l)) = true ∧
    lateHeaderLines.length = 21 ∧
    findHeaderRow lateHeaderLines = some (';', 20) := by
  refine ⟨by decide, by rfl, by rfl⟩

/-! ## Normalizer: `ParseFlexibleDate` (src/unnamed/part_002, package
normalizer)

The Go code parses with `time.ParseInLocation` against the translated
preferred layout and then against the `dateFormats` ladder.  The model below
implements Go's reference-layout parsing for the layout tokens these
patterns use (`2006`, `06`, `01`, `1`, `02`, `2`, `15`, `04`, `05`, and
literal separators), including Go's range validation of month, day (against
the month length), hour, minute and second, and its rejection of trailing
input.  A location is represented by its IANA name; parsing never consults
the zone data for these layouts, so the location is simply attached to the
result (`UTC` when absent, as in the code). -/

/-- Layout tokens of Go's reference date (`Mon Jan 2 15:04:05 2006`),
restricted to the tokens reachable from this repository. -/
inductive LayoutTok where
  | year4
  | year2
  | month2
  | month1
  | day2
  | day1
  | hour24
  | minute2
  | second2
  | lit (c : Char)
deriving DecidableEq

/-- Tokenisation of a layout string, mirroring Go's `nextStdChunk` on the
supported tokens (longest match first, as in Go). -/
def layoutToks : List Char → List LayoutTok
  | '2' :: '0' :: '0' :: '6' :: rest => .year4 :: layoutToks rest
  | '0' :: '1' :: rest => .month2 :: layoutToks rest
  | '0' :: '2' :: rest => .day2 :: layoutToks rest
  | '0' :: '4' :: rest => .minute2 :: layoutToks rest
  | '0' :: '5' :: rest => .second2 :: layoutToks rest
  | '0' :: '6' :: rest => .year2 :: layoutToks rest
  | '1' :: '5' :: rest => .hour24 :: layoutToks rest
  | '1' :: rest => .month1 :: layoutToks rest
  | '2' :: rest => .day1 :: layoutToks rest
  | c :: rest => .lit c :: layoutToks rest
  | [] => []

/-- The result of a successful Go date parse: a wall-clock time together
with the location it was interpreted in. -/
structure GoTime where
  year : Nat
  month : Nat
  day : Nat
  hour : Nat
  minute : Nat
  second : Nat
  loc : String
deriving DecidableEq

/-- Intermediate parse state; Go defaults to January 1 of year 0, midnight. -/
structure DateParts where
  year : Nat := 0
  month : Nat := 1
  day : Nat := 1
  hour : Nat := 0
  minute : Nat := 0
  second : Nat := 0
deriving DecidableEq

/-- Read exactly `k` digits (Go's `getnum` with `fixed = true`, and the
four-digit year read). -/
def readFixed (k : Nat) (v : List Char) : Option (Nat × List Char) :=
  if (v.take k).length = k ∧ (v.take k).all uIsDigit then
    some (decToNat (v.take k), v.drop k)
  else none

/-- Read one or two digits (Go's `getnum` with `fixed = false`). -/
def readNum : List Char → Option (Nat × List Char)
  | [] => none
  | [a] => if uIsDigit a then some (digitVal a, []) else none
  | a :: b :: rest =>
    if uIsDigit a then
      if uIsDigit b then some (digitVal a * 10 + digitVal b, rest)
      else some (digitVal a, b :: rest)
    else none

/-- Run the layout tokens over the value; trailing input is an error, as in
Go (`extra text`), and hour/minute/second are range-checked as in Go. -/
def runToks : List LayoutTok → List Char → DateParts → Option DateParts
  | [], [], dp => some dp
  | [], _ :: _, _ => none
  | t :: ts, v, dp =>
    match t with
    | .year4 =>
      match readFixed 4 v with
      | some (n, rest) => runToks ts rest { dp with year := n }
      | none => none
    | .year2 =>
      match readFixed 2 v with
      | some (n, rest) =>
        runToks ts rest { dp with year := if 69 ≤ n then 1900 + n else 2000 + n }
      | none => none
    | .month2 =>
      match readFixed 2 v with
      | some (n, rest) => runToks ts rest { dp with month := n }
      | none => none
    | .month1 =>
      match readNum v with
      | some (n, rest) => runToks ts rest { dp with month := n }
      | none => none
    | .day2 =>
      match readFixed 2 v with
      | some (n, rest) => runToks ts rest { dp with day := n }
      | none => none
    | .day1 =>
      match readNum v with
      | some (n, rest) => runToks ts rest { dp with day := n }
      | none => none
    | .hour24 =>
      match readNum v with
      | some (n, rest) =>
        if n < 24 then runToks ts rest { dp with hour := n } else none
      | none => none
    | .minute2 =>
      match readFixed 2 v with
      | some (n, rest) =>
        if n < 60 then runToks ts rest { dp with minute := n } else none
      | none => none
    | .second2 =>
      match readFixed 2 v with
      | some (n, rest) =>
        if n < 60 then runToks ts rest { dp with second := n } else none
      | none => none
    | .lit c =>
      match v with
      | x :: rest => if x = c then runToks ts rest dp else none
      | [] => none

/-- Gregorian leap-year rule, as Go's `isLeap`. -/
def isLeapYear (y : Nat) : Bool :=
  y % 4 = 0 && (y % 100 ≠ 0 || y % 400 = 0)

/-- Days in a month, as Go's `daysIn`. -/
def daysInMonth (m y : Nat) : Nat :=
  if m = 2 then (if isLeapYear y then 29 else 28)
  else if m = 4 ∨ m = 6 ∨ m = 9 ∨ m = 11 then 30
  else 31

/-- `time.ParseInLocation` for the supported layouts: run the tokens, then
validate month and day ranges as Go's parser does. -/
def parseInLocation (layout value loc : String) : Option GoTime :=
  match runToks (layoutToks layout.data) value.data {} with
  | none => none
  | some dp =>
    if 1 ≤ dp.month ∧ dp.month ≤ 12 ∧ 1 ≤ dp.day ∧
        dp.day ≤ daysInMonth dp.month dp.year then
      some ⟨dp.year, dp.month, dp.day, dp.hour, dp.minute, dp.second, loc⟩
    else none

/-- The fallback ladder `dateFormats`, verbatim from the source and in
source order: five European patterns, three American patterns, two ISO
patterns, and exactly four patterns with a time component. -/
def dateFormats : List String :=
  ["02-01-2006", "02/01/2006", "02.01.2006", "2-1-2006", "2/1/2006",
   "01-02-2006", "01/02/2006", "1/2/2006",
   "2006-01-02", "2006/01/02",
   "02-01-2006 15:04", "02/01/2006 15:04", "01/02/2006 15:04",
   "2006-01-02 15:04:05"]

/-- Fuel-indexed body of `replaceAllChars`; the fuel bounds the number of
replacement steps, each of which consumes at least one character. -/
def replaceAllCharsAux : Nat → List Char → List Char → List Char → List Char
  | 0, s, _, _ => s
  | fuel + 1, s, pat, rep =>
    match s with
    | [] => []
    | c :: rest =>
      if pat ≠ [] ∧ startsWithChars (c :: rest) pat then
        rep ++ replaceAllCharsAux fuel ((c :: rest).drop pat.length) pat rep
      else c :: replaceAllCharsAux fuel rest pat rep

/-- `strings.ReplaceAll` on character lists. -/
def replaceAllChars (s pat rep : List Char) : List Char :=
  replaceAllCharsAux s.length s pat rep

/-- The token replacements of `convertDateFormat`, in the order of the Go
map literal.  Go iterates this map in unspecified order; for a pattern
containing `YYYY` an execution that applies the `YY` rule first mistranslates
the year (that layout then fails to parse and the fallback ladder is used
instead), so the model fixes the literal order, which is also the intended
translation. -/
def dateFormatReplacements : List (List Char × List Char) :=
  [("YYYY".data, "2006".data), ("YY".data, "06".data), ("MM".data, "01".data),
   ("DD".data, "02".data), ("HH".data, "15".data), ("mm".data, "04".data),
   ("ss".data, "05".data)]

/-- `convertDateFormat` converts user-facing tokens (`YYYY`, `MM`, `DD`,
`HH`, `mm`, `ss`) to the canonical Go layout. -/
def convertDateFormat (format : String) : String :=
  String.mk (dateFormatReplacements.foldl
    (fun acc pr => replaceAllChars acc pr.1 pr.2) format.data)

example : convertDateFormat "DD-MM-YYYY" = "02-01-2006" := by rfl
example : convertDateFormat "MM-DD-YYYY" = "01-02-2006" := by rfl
example : convertDateFormat "YYYY-MM-DD HH:mm:ss" = "2006-01-02 15:04:05" := by rfl

/-- `ParseFlexibleDate` tries the translated preferred format first, then
every pattern of `dateFormats` in order; parsing happens in the supplied
location, or UTC when it is absent. -/
def ParseFlexibleDate (raw preferredFormat : String) (loc : Option String) :
    Except String GoTime :=
  let raw2 := trimSpace raw
  if raw2 = "" then .error "invalid date format"
  else
    let l := loc.getD "UTC"
    let pref :=
      if preferredFormat ≠ "" then
        parseInLocation (convertDateFormat preferredFormat) raw2 l
      else none
    match pref with
    | some t => .ok t
    | none =>
      match dateFormats.findSome? (fun fmt => parseInLocation fmt raw2 l) with
      | some t => .ok t
      | none => .error "invalid date format"

example : ParseFlexibleDate "02-01-2024" "" none = .ok ⟨2024, 1, 2, 0, 0, 0, "UTC"⟩ := by
  rfl

example : ParseFlexibleDate "31-04-2024" "" none = .error "invalid date format" := by
  rfl

/-- C7 (counterexample): the claim says every ladder pattern is accepted
with an optional `HH:mm` or `HH:mm:ss` time suffix, but `DD.MM.YYYY` has no
time-suffixed variant in `dateFormats`: the bare date `15.01.2024` parses
while `15.01.2024 10:30` is rejected. -/
theorem ParseFlexibleDate_dot_time_counterexample :
    ParseFlexibleDate "15.01.2024 10:30" "" none = .error "invalid date format" ∧
    ParseFlexibleDate "15.01.2024" "" none = .ok ⟨2024, 1, 15, 0, 0, 0, "UTC"⟩ :=
  ⟨by rfl, by rfl⟩

/-- C7 (amended): `ParseFlexibleDate` tries the preferred format first
(translated from the `YYYY`/`MM`/`DD`/`HH`/`mm`/`ss` tokens), then the
ladder `dateFormats` in source order — European `DD-MM-YYYY`, `DD/MM/YYYY`,
`DD.MM.YYYY`, `D-M-YYYY`, `D/M/YYYY`; American `MM-DD-YYYY`, `MM/DD/YYYY`,
`M/D/YYYY`; ISO `YYYY-MM-DD`, `YYYY/MM/DD`; and exactly four time-suffixed
patterns `DD-MM-YYYY HH:mm`, `DD/MM/YYYY HH:mm`, `MM/DD/YYYY HH:mm`,
`YYYY-MM-DD HH:mm:ss` (no other pattern accepts a time suffix); parsing is
performed in the supplied location, or UTC when the location is absent. -/
theorem ParseFlexibleDate_amended :
    (∀ raw pref, ParseFlexibleDate raw pref none = ParseFlexibleDate raw pref (some "UTC")) ∧
    ParseFlexibleDate "02-03-2024" "" none = .ok ⟨2024, 3, 2, 0, 0, 0, "UTC"⟩ ∧
    ParseFlexibleDate "02-03-2024" "MM-DD-YYYY" none = .ok ⟨2024, 2, 3, 0, 0, 0, "UTC"⟩ ∧
    ParseFlexibleDate "03/04/2024" "" none = .ok ⟨2024, 4, 3, 0, 0, 0, "UTC"⟩ ∧
    ParseFlexibleDate "15.01.2024" "" none = .ok ⟨2024, 1, 15, 0, 0, 0, "UTC"⟩ ∧
    ParseFlexibleDate "2/1/2024" "" none = .ok ⟨2024, 1, 2, 0, 0, 0, "UTC"⟩ ∧
    ParseFlexibleDate "2024-01-15" "" none = .ok ⟨2024, 1, 15, 0, 0, 0, "UTC"⟩ ∧
    ParseFlexibleDate "2024/01/15" "" none = .ok ⟨2024, 1, 15, 0, 0, 0, "UTC"⟩ ∧
    ParseFlexibleDate "15-01-2024 10:30" "" none = .ok ⟨2024, 1, 15, 10, 30, 0, "UTC"⟩ ∧
    ParseFlexibleDate "15/01/2024 10:30" "" none = .ok ⟨2024, 1, 15, 10, 30, 0, "UTC"⟩ ∧
    ParseFlexibleDate "03/15/2024 10:30" "" none = .ok ⟨2024, 3, 15, 10, 30, 0, "UTC"⟩ ∧
    ParseFlexibleDate "2024-01-15 10:30:45" "" none = .ok ⟨2024, 1, 15, 10, 30, 45, "UTC"⟩ ∧
    ParseFlexibleDate "2024-01-15 10:30" "" none = .error "invalid date format" ∧
    ParseFlexibleDate "15-01-2024" "" (some "Europe/Lisbon") =
      .ok ⟨2024, 1, 15, 0, 0, 0, "Europe/Lisbon"⟩ :=
  ⟨fun _ _ => rfl, by rfl, by rfl, by rfl, by rfl, by rfl, by rfl, by rfl,
    by rfl, by rfl, by rfl, by rfl, by rfl, by rfl⟩

/-! ## Import orchestration (src/internal/domain/import/service/service.go and
src/internal/domain/import/repository/postgres_repository.go)

`ImportWithOptions` streams per-row parse outcomes (out of order, produced
by the worker pool), counts failures, batches successes in groups of 500,
bulk-inserts each batch with duplicate-skipping semantics, and finalises the
job.  The model below embeds that accounting loop:

* a `ParseResultR` is one element of the results channel — a line number
  with either a parsed transaction or a per-row validation error;
* `bulkInsertTransactions` is the `INSERT … ON CONFLICT (user_id, source,
  external_id) DO NOTHING` of the Postgres repository: rows whose external
  id is already present (in the table or earlier in the same batch) are
  silently skipped and only the rows actually inserted are counted;
* the database progress updates (`UpdateImportJobProgress`) do not affect
  the returned counters and are not modelled;
* `insertOk` is the schedule of bulk-insert outcomes (the k-th call fails
  iff `insertOk k = false`), modelling the only failure source — the
  database — outside the pure loop;
* `FinishImportJob` is the terminal `UPDATE import_jobs SET … rows_total =
  rows_imported + rows_failed` of the repository. -/

/-- A transaction as parsed from one CSV row; `date` stands for the RFC3339
rendering used by `generateExternalID`. -/
structure ParsedTransaction where
  date : String
  description : String
  amountCents : Int
deriving DecidableEq

/-- SHA-256, truncated to 16 bytes and hex encoded, modelled as an injective
encoding of the input (see the file header). -/
def sha256Hex16 (s : String) : String := s

/-- `generateExternalID` builds the deduplication key
`hex(sha256(date ‖ "|" ‖ description ‖ "|" ‖ amount))[:16]`. -/
def generateExternalID (tx : ParsedTransaction) : String :=
  sha256Hex16 (tx.date ++ "|" ++ tx.description ++ "|" ++ toString tx.amountCents)

/-- `BulkInsertTransactions`: insert the batch in order against a store of
already-present external ids, skipping conflicts silently, and return the
count of rows actually inserted together with the new store. -/
def bulkInsertTransactions : List String → List ParsedTransaction → Nat × List String
  | store, [] => (0, store)
  | store, tx :: rest =>
    let eid := generateExternalID tx
    if store.contains eid then bulkInsertTransactions store rest
    else
      let p := bulkInsertTransactions (eid :: store) rest
      (p.1 + 1, p.2)

/-- One element of the parse-results channel. -/
structure ParseResultR where
  lineNum : Nat
  res : Except String ParsedTransaction

/-- The mutable state of the consuming loop of `ImportWithOptions`. -/
structure LoopState where
  store : List String
  batch : List ParsedTransaction
  rowsImported : Nat
  rowsFailed : Nat
  parseErrors : List (Nat × String)
  insertErr : Bool
  insertCalls : Nat

/-- The batch size of the import loop. -/
def importBatchSize : Nat := 500

/-- `flushBatch`: nothing to do on an empty batch; otherwise run the bulk
insert (success dictated by the schedule), add the inserted count to
`rows_imported` and clear the batch, or record the insert error. -/
def flushBatch (insertOk : Nat → Bool) (st : LoopState) : LoopState :=
  if st.batch = [] then st
  else if insertOk st.insertCalls then
    let p := bulkInsertTransactions st.store st.batch
    { st with
      store := p.2
      rowsImported := st.rowsImported + p.1
      batch := []
      insertCalls := st.insertCalls + 1 }
  else { st with insertErr := true, insertCalls := st.insertCalls + 1 }

/-- One iteration of the result-consuming loop: after an insert error the
remaining results are drained without effect; an error result is recorded
and counted in `rows_failed`; a parsed row joins the batch, which is flushed
when it reaches `importBatchSize`. -/
def importStep (insertOk : Nat → Bool) (st : LoopState) (r : ParseResultR) : LoopState :=
  if st.insertErr then st
  else
    match r.res with
    | .error e =>
      { st with
        parseErrors := st.parseErrors ++ [(r.lineNum, e)]
        rowsFailed := st.rowsFailed + 1 }
    | .ok tx =>
      let st2 := { st with batch := st.batch ++ [tx] }
      if importBatchSize ≤ st2.batch.length then flushBatch insertOk st2 else st2

/-- Formatting of one reported parse error: `line N: message`. -/
def fmtLineError (p : Nat × String) : String :=
  "line " ++ toString p.1 ++ ": " ++ p.2

/-- The comparison used to sort reported errors: by line number. -/
def lineLe : Nat × String → Nat × String → Prop := fun a b => a.1 ≤ b.1

instance : DecidableRel lineLe := fun a b => Nat.decLe a.1 b.1

instance : IsTotal (Nat × String) lineLe := ⟨fun a b => Nat.le_total a.1 b.1⟩

instance : IsTrans (Nat × String) lineLe := ⟨fun _ _ _ => Nat.le_trans⟩

/-- The `ImportResult` returned by `ImportWithOptions`. -/
structure ImportResultR where
  rowsTotal : Nat
  rowsImported : Nat
  rowsFailed : Nat
  errors : List String
deriving DecidableEq

/-- The counters of the `import_jobs` row at terminal status. -/
structure ImportJobRow where
  status : String
  rowsImported : Nat
  rowsFailed : Nat
  rowsTotal : Nat
deriving DecidableEq

/-- `FinishImportJob` writes the terminal status and counters; the SQL sets
`rows_total = rows_imported + rows_failed`. -/
def FinishImportJob (status : String) (rowsImported rowsFailed : Nat) : ImportJobRow :=
  ⟨status, rowsImported, rowsFailed, rowsImported + rowsFailed⟩

/-- The accounting loop of `ImportWithOptions` after parsing has been set
up: fold the parse results, flush the final partial batch, sort the
collected parse errors by line number and append their renderings to the
reader-level `preErrors`, then finalise the job and build the result. -/
def ImportWithOptionsLoop (insertOk : Nat → Bool) (store0 : List String)
    (preErrors : List String) (results : List ParseResultR) :
    Except String ImportResultR × ImportJobRow :=
  let st0 : LoopState := ⟨store0, [], 0, preErrors.length, [], false, 0⟩
  let st1 := results.foldl (importStep insertOk) st0
  let st2 := if st1.insertErr then st1 else flushBatch insertOk st1
  let sorted := List.insertionSort lineLe st2.parseErrors
  let errors := preErrors ++ sorted.map fmtLineError
  if st2.insertErr then
    (.error "failed to insert transactions",
      FinishImportJob "failed" st2.rowsImported st2.rowsFailed)
  else
    (.ok ⟨st2.rowsImported + st2.rowsFailed, st2.rowsImported, st2.rowsFailed, errors⟩,
      FinishImportJob "succeeded" st2.rowsImported st2.rowsFailed)

/-- The insert schedule on which every bulk insert succeeds. -/
def insertAlwaysOk : Nat → Bool := fun _ => true

/-- The per-row validation errors among the results, in arrival order. -/
def collectParseErrors (results : List ParseResultR) : List (Nat × String) :=
  results.filterMap fun r =>
    match r.res with
    | .error e => some (r.lineNum, e)
    | .ok _ => none

/-- The successfully parsed transactions among the results, in arrival
order. -/
def collectOk (results : List ParseResultR) : List ParsedTransaction :=
  results.filterMap fun r =>
    match r.res with
    | .error _ => none
    | .ok tx => some tx

/-! ### Invariants of the import loop -/

theorem bulkInsert_fst_le (store : List String) (txs : List ParsedTransaction) :
    (bulkInsertTransactions store txs).1 ≤ txs.length := by
  induction txs generalizing store with
  | nil => simp [bulkInsertTransactions]
  | cons tx rest ih =>
    unfold bulkInsertTransactions
    dsimp only
    split
    · exact le_trans (ih store) (by simp)
    · simpa using Nat.succ_le_succ (ih _)

theorem flushBatch_ok_spec (st : LoopState) :
    (flushBatch insertAlwaysOk st).insertErr = st.insertErr ∧
    (flushBatch insertAlwaysOk st).rowsFailed = st.rowsFailed ∧
    (flushBatch insertAlwaysOk st).parseErrors = st.parseErrors ∧
    (flushBatch insertAlwaysOk st).batch = [] ∧
    (flushBatch insertAlwaysOk st).rowsImported ≤
      st.rowsImported + st.batch.length := by
  unfold flushBatch
  split
  · next hb => exact ⟨rfl, rfl, rfl, hb, by omega⟩
  · next hb =>
    rw [if_pos (show insertAlwaysOk st.insertCalls = true from rfl)]
    exact ⟨rfl, rfl, rfl, rfl, Nat.add_le_add_left (bulkInsert_fst_le _ _) _⟩

theorem importFold_ok_spec (rs : List ParseResultR) :
    ∀ st : LoopState, st.insertErr = false →
      (rs.foldl (importStep insertAlwaysOk) st).insertErr = false ∧
      (rs.foldl (importStep insertAlwaysOk) st).rowsFailed =
        st.rowsFailed + (collectParseErrors rs).length ∧
      (rs.foldl (importStep insertAlwaysOk) st).parseErrors =
        st.parseErrors ++ collectParseErrors rs ∧
      (rs.foldl (importStep insertAlwaysOk) st).rowsImported +
          (rs.foldl (importStep insertAlwaysOk) st).batch.length ≤
        st.rowsImported + st.batch.length + (collectOk rs).length := by
  induction rs with
  | nil =>
    intro st h
    simp [collectParseErrors, collectOk, h]
  | cons r rest ih =>
    intro st h
    rw [List.foldl_cons]
    cases hr : r.res with
    | error e =>
      have hst2 : importStep insertAlwaysOk st r =
          { st with
            parseErrors := st.parseErrors ++ [(r.lineNum, e)]
            rowsFailed := st.rowsFailed + 1 } := by
        unfold importStep
        rw [if_neg (by simp [h]), hr]
      have hce : collectParseErrors (r :: rest) =
          (r.lineNum, e) :: collectParseErrors rest := by
        simp [collectParseErrors, List.filterMap_cons, hr]
      have hco : collectOk (r :: rest) = collectOk rest := by
        simp [collectOk, List.filterMap_cons, hr]
      obtain ⟨i1, i2, i3, i4⟩ := ih (importStep insertAlwaysOk st r)
        (by rw [hst2]; exact h)
      rw [hst2] at i1 i2 i3 i4 ⊢
      refine ⟨i1, ?_, ?_, ?_⟩
      · rw [i2, hce]
        simp only [List.length_cons]
        omega
      · rw [i3, hce]
        simp
      · rw [hco]
        simpa using i4
    | ok tx =>
      have hkey : (importStep insertAlwaysOk st r).insertErr = false ∧
          (importStep insertAlwaysOk st r).rowsFailed = st.rowsFailed ∧
          (importStep insertAlwaysOk st r).parseErrors = st.parseErrors ∧
          (importStep insertAlwaysOk st r).rowsImported +
              (importStep insertAlwaysOk st r).batch.length ≤
            st.rowsImported + st.batch.length + 1 := by
        unfold importStep
        rw [if_neg (by simp [h]), hr]
        dsimp only
        split
        · have hspec := flushBatch_ok_spec { st with batch := st.batch ++ [tx] }
          dsimp only at hspec
          obtain ⟨f1, f2, f3, f4, f5⟩ := hspec
          refine ⟨by rw [f1]; exact h, f2, f3, ?_⟩
          rw [f4]
          simp only [List.length_append, List.length_cons, List.length_nil] at f5 ⊢
          omega
        · refine ⟨h, rfl, rfl, ?_⟩
          simp only [List.length_append, List.length_cons, List.length_nil]
          omega
      have hce : collectParseErrors (r :: rest) = collectParseErrors rest := by
        simp [collectParseErrors, List.filterMap_cons, hr]
      have hco : collectOk (r :: rest) = tx :: collectOk rest := by
        simp [collectOk, List.filterMap_cons, hr]
      obtain ⟨k1, k2, k3, k4⟩ := hkey
      obtain ⟨i1, i2, i3, i4⟩ := ih _ k1
      refine ⟨i1, ?_, ?_, ?_⟩
      · rw [i2, k2, hce]
      · rw [i3, k3, hce]
      · rw [hco]
        simp only [List.length_cons]
        omega

/-- C2: when every bulk insert succeeds and there are no reader-level
errors, the import loop returns a successful `ImportResult` (no error, job
finalised as `succeeded`); every per-row validation failure is counted in
`rows_failed` and reported as a string `line N: message` in
`ImportResult.Errors`, and the reported parse errors are listed in ascending
line-number order (they are the rendering of a line-sorted permutation of
the collected failures). -/
theorem importLoop_parse_error_reporting (store : List String)
    (results : List ParseResultR) :
    ∃ r : ImportResultR,
      (ImportWithOptionsLoop insertAlwaysOk store [] results).1 = .ok r ∧
      (ImportWithOptionsLoop insertAlwaysOk store [] results).2.status = "succeeded" ∧
      r.rowsFailed = (collectParseErrors results).length ∧
      (∀ p ∈ collectParseErrors results, fmtLineError p ∈ r.errors) ∧
      ∃ l : List (Nat × String), r.errors = l.map fmtLineError ∧
        l.Perm (collectParseErrors results) ∧ l.Sorted lineLe := by
  obtain ⟨i1, i2, i3, i4⟩ :=
    importFold_ok_spec results ⟨store, [], 0, ([] : List String).length, [], false, 0⟩
      rfl
  obtain ⟨f1, f2, f3, f4, f5⟩ := flushBatch_ok_spec
    (results.foldl (importStep insertAlwaysOk)
      ⟨store, [], 0, ([] : List String).length, [], false, 0⟩)
  unfold ImportWithOptionsLoop
  simp only [i1, Bool.false_eq_true, if_false, f1, f2, f3]
  rw [i2, i3]
  simp only [List.nil_append, List.length_nil, Nat.zero_add]
  refine ⟨_, rfl, rfl, rfl, ?_, ?_⟩
  · intro p hp
    apply List.mem_map_of_mem
    exact (List.perm_insertionSort lineLe _).mem_iff.mpr hp
  · exact ⟨List.insertionSort lineLe (collectParseErrors results), rfl,
      List.perm_insertionSort lineLe _,
      List.sorted_insertionSort lineLe _⟩

/-- A successfully parsed demonstration row. -/
def demoTx : ParsedTransaction := ⟨"2024-01-05T00:00:00Z", "Payroll", 250000⟩

/-- A demonstration result stream: failures on lines 5 and 3 arriving out of
order around a success on line 2. -/
def demoResults : List ParseResultR :=
  [⟨5, .error "invalid amount"⟩, ⟨2, .ok demoTx⟩, ⟨3, .error "invalid date"⟩]

/-- Witness for `importLoop_parse_error_reporting` on `demoResults`. -/
theorem importLoop_parse_error_reporting_witness :
    (3, "invalid date") ∈ collectParseErrors demoResults ∧
    ∃ r : ImportResultR,
      (ImportWithOptionsLoop insertAlwaysOk [] [] demoResults).1 = .ok r ∧
      fmtLineError (3, "invalid date") ∈ r.errors := by
  obtain ⟨r, h1, _, _, h4, _⟩ := importLoop_parse_error_reporting [] demoResults
  exact ⟨by decide, r, h1, h4 _ (by decide)⟩

/-- A parsed row whose content is already present in storage. -/
def dupTx : ParsedTransaction := ⟨"2024-01-02T00:00:00Z", "Netflix", -1299⟩

/-- C1 (counterexample): importing a single well-parsed row whose external
id is already present yields `rows_total = 0`, `rows_imported = 0`,
`rows_failed = 0` while the storage layer silently skipped `duplicates = 1`
row — so `rows_total = rows_imported + rows_failed + duplicates` fails: the
reported total excludes duplicates. -/
theorem importLoop_duplicate_counterexample :
    (ImportWithOptionsLoop insertAlwaysOk [generateExternalID dupTx] []
        [⟨2, .ok dupTx⟩]).1 = .ok ⟨0, 0, 0, []⟩ ∧
    (collectOk [⟨2, .ok dupTx⟩]).length = 1 ∧
    (ImportWithOptionsLoop insertAlwaysOk [generateExternalID dupTx] []
        [⟨2, .ok dupTx⟩]).2.rowsTotal ≠
      (ImportWithOptionsLoop insertAlwaysOk [generateExternalID dupTx] []
          [⟨2, .ok dupTx⟩]).2.rowsImported +
        (ImportWithOptionsLoop insertAlwaysOk [generateExternalID dupTx] []
            [⟨2, .ok dupTx⟩]).2.rowsFailed +
        ((collectOk [⟨2, .ok dupTx⟩]).length -
          (ImportWithOptionsLoop insertAlwaysOk [generateExternalID dupTx] []
              [⟨2, .ok dupTx⟩]).2.rowsImported) :=
  ⟨rfl, rfl, by decide⟩

/-- C1 (amended): at every terminal status the counters written by
`FinishImportJob` satisfy `rows_total = rows_imported + rows_failed`
(duplicates are excluded from all three counters), and the `ImportResult`
returned on the all-inserts-succeed schedule satisfies the same equation,
with `rows_imported` at most the number of successfully parsed rows — the
difference being the non-negative count of rows the storage layer silently
skipped as duplicates. -/
theorem importLoop_rowsTotal_amended (insertOk : Nat → Bool)
    (store preErrors : List String) (results : List ParseResultR) :
    ((ImportWithOptionsLoop insertOk store preErrors results).2.rowsTotal =
      (ImportWithOptionsLoop insertOk store preErrors results).2.rowsImported +
        (ImportWithOptionsLoop insertOk store preErrors results).2.rowsFailed) ∧
    ∃ r : ImportResultR,
      (ImportWithOptionsLoop insertAlwaysOk store preErrors results).1 = .ok r ∧
      r.rowsTotal = r.rowsImported + r.rowsFailed ∧
      r.rowsImported ≤ (collectOk results).length := by
  constructor
  · simp only [ImportWithOptionsLoop, FinishImportJob]
    split <;> first
      | rfl
      | (split <;> rfl)
  · obtain ⟨i1, i2, i3, i4⟩ :=
      importFold_ok_spec results ⟨store, [], 0, preErrors.length, [], false, 0⟩ rfl
    obtain ⟨f1, f2, f3, f4, f5⟩ := flushBatch_ok_spec
      (results.foldl (importStep insertAlwaysOk)
        ⟨store, [], 0, preErrors.length, [], false, 0⟩)
    unfold ImportWithOptionsLoop
    simp only [i1, Bool.false_eq_true, if_false, f1]
    refine ⟨_, rfl, rfl, ?_⟩
    calc (flushBatch insertAlwaysOk (results.foldl (importStep insertAlwaysOk)
          ⟨store, [], 0, preErrors.length, [], false, 0⟩)).rowsImported
        ≤ (results.foldl (importStep insertAlwaysOk)
            ⟨store, [], 0, preErrors.length, [], false, 0⟩).rowsImported +
          (results.foldl (importStep insertAlwaysOk)
            ⟨store, [], 0, preErrors.length, [], false, 0⟩).batch.length := f5
      _ ≤ 0 + ([] : List ParsedTransaction).length + (collectOk results).length := i4
      _ = (collectOk results).length := by simp

/-! ## `SaveMapping` (src/internal/domain/import/service/service.go) -/

/-- The caller-facing `ColumnMapping` of the import service. -/
structure ColumnMapping where
  dateCol : Int := -1
  descCol : Int := -1
  categoryCol : Int := -1
  amountCol : Int := -1
  debitCol : Int := -1
  creditCol : Int := -1
  isDoubleEntry : Bool := false
  isEuropeanFormat : Bool := false
  dateFormat : String := ""
  delimiter : Char := Char.ofNat 0
  skipLines : Int := 0
deriving DecidableEq

/-- The persisted `BankMapping` row; `none` models SQL NULL. -/
structure BankMapping where
  userId : Option Nat
  fingerprint : String
  bankName : Option String
  delimiter : String
  skipLines : Nat
  dateFormat : String
  dateCol : Int
  descCol : Int
  categoryCol : Option Int
  amountCol : Option Int
  debitCol : Option Int
  creditCol : Option Int
  isEuropeanFormat : Bool
deriving DecidableEq

/-- `SaveMapping` builds the `BankMapping` persisted through
`CreateMapping`: the bank name pointer is nil for the empty string, the
delimiter and skip-lines are the constants `";"` and 0, the category column
is stored when non-negative, and double-entry mappings store debit/credit
(no amount) while single-amount mappings store amount (no debit/credit). -/
def SaveMapping (userID : Nat) (fingerprint bankName : String)
    (mapping : ColumnMapping) : BankMapping :=
  { userId := some userID
    fingerprint := fingerprint
    bankName := if bankName = "" then none else some bankName
    delimiter := ";"
    skipLines := 0
    dateFormat := mapping.dateFormat
    dateCol := mapping.dateCol
    descCol := mapping.descCol
    categoryCol := if 0 ≤ mapping.categoryCol then some mapping.categoryCol else none
    amountCol := if mapping.isDoubleEntry then none else some mapping.amountCol
    debitCol := if mapping.isDoubleEntry then some mapping.debitCol else none
    creditCol := if mapping.isDoubleEntry then some mapping.creditCol else none
    isEuropeanFormat := mapping.isEuropeanFormat }

/-- C9: every `BankMapping` persisted through the service-level
`SaveMapping` has delimiter `";"` and skip-lines 0 regardless of the actual
file or the caller's `ColumnMapping`; it stores debit and credit columns
(and no amount column) when `IsDoubleEntry` is set, an amount column (and no
debit/credit columns) otherwise; and it stores a null bank name exactly when
the given bank name is the empty string. -/
theorem SaveMapping_spec (userID : Nat) (fingerprint bankName : String)
    (m : ColumnMapping) :
    (SaveMapping userID fingerprint bankName m).delimiter = ";" ∧
    (SaveMapping userID fingerprint bankName m).skipLines = 0 ∧
    (SaveMapping userID fingerprint bankName m).amountCol =
      (if m.isDoubleEntry then none else some m.amountCol) ∧
    (SaveMapping userID fingerprint bankName m).debitCol =
      (if m.isDoubleEntry then some m.debitCol else none) ∧
    (SaveMapping userID fingerprint bankName m).creditCol =
      (if m.isDoubleEntry then some m.creditCol else none) ∧
    (SaveMapping userID fingerprint bankName m).bankName =
      (if bankName = "" then none else some bankName) ∧
    (SaveMapping userID fingerprint bankName m).userId = some userID ∧
    (SaveMapping userID fingerprint bankName m).fingerprint = fingerprint :=
  ⟨rfl, rfl, rfl, rfl, rfl, rfl, rfl, rfl⟩

/-! ## `ListTransactions` (src/internal/domain/import/repository/
postgres_repository.go)

The SQL query is modelled as a pure function over the transactions table:
filter by the optional criteria, order by `posted_at DESC`, apply the
offset and the page-size limit (`LIMIT`/`OFFSET`), and return the rows with
the pre-pagination match count.  `ILIKE %s%` is modelled as case-insensitive
substring containment (searches containing SQL wildcard characters are
outside the model). -/

/-- A stored transaction row, with the fields the query filters on. -/
structure TransactionR where
  userId : Nat
  accountId : Option Nat := none
  categoryId : Option Nat := none
  importJobId : Option Nat := none
  postedAt : Int := 0
  description : String := ""
deriving DecidableEq

/-- The filter of `ListTransactions`; all criteria optional. -/
structure TxFilter where
  accountId : Option Nat := none
  categoryId : Option Nat := none
  importJobId : Option Nat := none
  startDate : Option Int := none
  endDate : Option Int := none
  search : String := ""
  limit : Int := 0
  offset : Int := 0
deriving DecidableEq

/-- Case-insensitive substring containment (the `ILIKE '%s%'` clause). -/
def containsCI (hay sub : List Char) : Bool :=
  containsChars (hay.map uToLower) (sub.map uToLower)

/-- The WHERE clause of `ListTransactions`. -/
def matchesFilter (userID : Nat) (f : TxFilter) (t : TransactionR) : Bool :=
  t.userId = userID &&
  (match f.accountId with
   | none => true
   | some a => t.accountId = some a) &&
  (match f.categoryId with
   | none => true
   | some a => t.categoryId = some a) &&
  (match f.importJobId with
   | none => true
   | some a => t.importJobId = some a) &&
  (match f.startDate with
   | none => true
   | some d => d ≤ t.postedAt) &&
  (match f.endDate with
   | none => true
   | some d => t.postedAt ≤ d) &&
  (f.search = "" || containsCI t.description.data f.search.data)

/-- The `ORDER BY posted_at DESC` relation. -/
def postedDesc : TransactionR → TransactionR → Prop :=
  fun a b => b.postedAt ≤ a.postedAt

instance : DecidableRel postedDesc := fun a b => Int.decLe b.postedAt a.postedAt

instance : IsTotal TransactionR postedDesc :=
  ⟨fun a b => Int.le_total b.postedAt a.postedAt⟩

instance : IsTrans TransactionR postedDesc :=
  ⟨fun _ _ _ hab hbc => le_trans hbc hab⟩

/-- `ListTransactions` over an in-memory table: the limit falls back to 50
whenever the requested limit is non-positive or exceeds 100, the offset is
clamped at 0, rows are ordered by `posted_at` descending, and the second
component is the pre-pagination count of matching rows. -/
def ListTransactions (userID : Nat) (table : List TransactionR) (f : TxFilter) :
    List TransactionR × Nat :=
  let matching := table.filter (matchesFilter userID f)
  let totalCount := matching.length
  let limit : Int := if f.limit ≤ 0 ∨ 100 < f.limit then 50 else f.limit
  let offset : Int := if f.offset < 0 then 0 else f.offset
  let sorted := List.insertionSort postedDesc matching
  ((sorted.drop offset.toNat).take limit.toNat, totalCount)

/-- A table of 51 rows owned by user 1, all matching the empty filter. -/
def tbl51 : List TransactionR :=
  (List.range 51).map fun i => { userId := 1, postedAt := (i : Int) }

/-- C8 (counterexample): with 51 matching rows and a requested limit of 150
the claim (limit clamped to 100) predicts all 51 rows on the first page, but
the code replaces any limit above 100 with the default 50 and returns only
50 of the 51 matches. -/
theorem ListTransactions_limit_counterexample :
    (ListTransactions 1 tbl51 { limit := 150 }).2 = 51 ∧
    (ListTransactions 1 tbl51 { limit := 150 }).1.length = 50 ∧
    (ListTransactions 1 tbl51 { limit := 150 }).1.length ≠
      min (min 150 100) (ListTransactions 1 tbl51 { limit := 150 }).2 := by
  have hfil : tbl51.filter (matchesFilter 1 { limit := 150 }) = tbl51 := by decide
  have hlen : tbl51.length = 51 := by decide
  have hsortlen : (List.insertionSort postedDesc
      (tbl51.filter (matchesFilter 1 { limit := 150 }))).length = 51 := by
    rw [(List.perm_insertionSort postedDesc _).length_eq, hfil, hlen]
  have h2 : (ListTransactions 1 tbl51 { limit := 150 }).2 = 51 := by
    show (tbl51.filter (matchesFilter 1 { limit := 150 })).length = 51
    rw [hfil, hlen]
  have h1 : (ListTransactions 1 tbl51 { limit := 150 }).1.length = 50 := by
    show (((List.insertionSort postedDesc
        (tbl51.filter (matchesFilter 1 { limit := 150 }))).drop
          ((0 : Int).toNat)).take ((50 : Int).toNat)).length = 50
    rw [List.length_take, List.length_drop, hsortlen]
    decide
  refine ⟨h2, h1, ?_⟩
  rw [h1, h2]
  decide

/-- C8 (amended): the page-size limit defaults to 50 when the requested
limit is non-positive and also falls back to 50 (it is not clamped to 100)
when the requested limit exceeds 100, so at most
`min (max 1 requested-limit) 100` — in fact at most 100, and at most 50 in
the fallback cases — rows are returned; rows that are returned all match the
filter and are ordered by posted-at descending, and the returned total is
the pre-pagination count of matching rows. -/
theorem ListTransactions_spec (userID : Nat) (table : List TransactionR)
    (f : TxFilter) :
    ((ListTransactions userID table f).1.length ≤ 100) ∧
    ((f.limit ≤ 0 ∨ 100 < f.limit) →
      (ListTransactions userID table f).1.length ≤ 50) ∧
    ((0 < f.limit ∧ f.limit ≤ 100) →
      ((ListTransactions userID table f).1.length : Int) ≤ f.limit) ∧
    List.Sorted postedDesc (ListTransactions userID table f).1 ∧
    (∀ t ∈ (ListTransactions userID table f).1, matchesFilter userID f t = true) ∧
    (ListTransactions userID table f).2 =
      (table.filter (matchesFilter userID f)).length := by
  have hlen : (ListTransactions userID table f).1.length ≤
      (if f.limit ≤ 0 ∨ 100 < f.limit then (50 : Int) else f.limit).toNat := by
    show (((List.insertionSort postedDesc (table.filter (matchesFilter userID f))).drop
        _).take _).length ≤ _
    rw [List.length_take]
    exact min_le_left _ _
  have hsub : (ListTransactions userID table f).1.Sublist
      (List.insertionSort postedDesc (table.filter (matchesFilter userID f))) := by
    exact (List.take_sublist _ _).trans (List.drop_sublist _ _)
  refine ⟨?_, ?_, ?_, ?_, ?_, rfl⟩
  · refine le_trans hlen ?_
    split
    · decide
    · next hc =>
      push_neg at hc
      omega
  · intro hc
    refine le_trans hlen ?_
    rw [if_pos hc]
    decide
  · intro hc
    refine le_trans (Int.ofNat_le.mpr hlen) ?_
    rw [if_neg (by omega)]
    omega
  · exact (List.sorted_insertionSort postedDesc _).sublist hsub
  · intro t ht
    have h2 : t ∈ List.insertionSort postedDesc
        (table.filter (matchesFilter userID f)) := hsub.mem ht
    have h3 : t ∈ table.filter (matchesFilter userID f) :=
      (List.perm_insertionSort postedDesc _).mem_iff.mp h2
    exact List.of_mem_filter h3

/-- Witness for `ListTransactions_spec`: with the over-large limit 150 the
fallback branch applies and at most 50 rows come back. -/
theorem ListTransactions_spec_witness :
    (((150 : Int) ≤ 0 ∨ (100 : Int) < 150) ∧
      (ListTransactions 1 tbl51 { limit := 150 }).1.length ≤ 50) ∧
    ((0 < (60 : Int) ∧ (60 : Int) ≤ 100) ∧
      ((ListTransactions 1 tbl51 { limit := 60 }).1.length : Int) ≤ 60) :=
  ⟨⟨Or.inr (by norm_num),
      (ListTransactions_spec 1 tbl51 { limit := 150 }).2.1 (Or.inr (by norm_num))⟩,
    ⟨⟨by norm_num, by norm_num⟩,
      (ListTransactions_spec 1 tbl51 { limit := 60 }).2.2.1 ⟨by norm_num, by norm_num⟩⟩⟩

end SmartFinance
